import Mathlib

set_option maxHeartbeats 1000000

namespace AiryWebapp

/-!
Shallow embedding of the query result-set synchronization engine of the
repository's `layer-websdk` sources (`src/queries/channels-query.js` and
`src/queries/identities-query.js`).  Pure functions of the JS code become
Lean functions on lists; the mutable controller state becomes an explicit
`QueryState` record threaded through the handlers; `_triggerChange`
notifications become an ordered list of `Delta` values returned alongside
the new state.
-/

/-- Sync lifecycle states of an entity (`SYNC_STATE` of `const.js`). -/
inductive SyncState
  | NEW
  | SAVING
  | SYNCED
  | SYNCING
  | LOADING
  deriving DecidableEq, Repr

/-- An entity as seen by the query layer: `id`, `syncState`, `createdAt`,
`lastMessage.sentAt` when a last message exists, and the result of
`isSaved()`.  `isSaved()` is defined on the Syncable base class, which is not
among the sources at hand, so it is modelled as an abstract per-entity
attribute `saved`.  Timestamps are integers (JS `Date` values compare
numerically). -/
structure Entity where
  id : String
  syncState : SyncState
  createdAt : Int
  lastMessage : Option Int
  saved : Bool
  deriving DecidableEq, Repr

/-- The `channel.isSaved()` test, see `Entity.saved`. -/
def Entity.isSaved (e : Entity) : Bool := e.saved

/-- Derived recency key:
`channel.lastMessage ? channel.lastMessage.sentAt : channel.createdAt`
(channels-query.js lines 173 and 181). -/
def derivedKey (e : Entity) : Int :=
  match e.lastMessage with
  | some sentAt => sentAt
  | none => e.createdAt

/-- The check
`item.syncState === SYNC_STATE.NEW || item.syncState === SYNC_STATE.SAVING`
(channels-query.js lines 164 and 178). -/
def isUnsynced (e : Entity) : Bool :=
  e.syncState == SyncState.NEW || e.syncState == SyncState.SAVING

/-- Sort field returned by `_getSortField()`.  `ChannelsQuery` pins
`created_at` (line 53); the shared method bodies also branch on the recency
value `last_message` used by the conversation query family, so the functions
below take the sort field as a parameter. -/
inductive SortField
  | created_at
  | last_message
  deriving DecidableEq, Repr

/-- The `created_at` scan loop of `_getInsertIndex` (channels-query.js lines
161-170), written as structural recursion: the result is the loop's final
`index`, relative to the start of `data`.  A skipped NEW/SAVING item and an
item with `channel.createdAt < item.createdAt` advance the index; the loop
breaks at the first other item with `channel.createdAt >= item.createdAt`;
falling off the end yields the array length. -/
def createdAtScan (channel : Entity) : List Entity → Nat
  | [] => 0
  | item :: rest =>
    if isUnsynced item then createdAtScan channel rest + 1
    else if channel.createdAt ≥ item.createdAt then 0
    else createdAtScan channel rest + 1

/-- The recency scan loop of `_getInsertIndex` (channels-query.js lines
172-184): returns the loop's final `(index, oldIndex)` pair, with the JS
sentinel `oldIndex = -1` modelled as `none`.  Positions are relative to the
start of `data`; a later occurrence of the candidate's ID overwrites
`oldIndex`, exactly as the loop's assignment `oldIndex = index` does. -/
def recencyScan (channel : Entity) (d1 : Int) : List Entity → Nat × Option Nat
  | [] => (0, none)
  | item :: rest =>
    if item.id == channel.id then
      match recencyScan channel d1 rest with
      | (i, some j) => (i + 1, some (j + 1))
      | (i, none) => (i + 1, some 0)
    else if isUnsynced item then
      match recencyScan channel d1 rest with
      | (i, o) => (i + 1, o.map (· + 1))
    else if d1 ≥ derivedKey item then (0, none)
    else
      match recencyScan channel d1 rest with
      | (i, o) => (i + 1, o.map (· + 1))

/-- `_getInsertIndex(channel, data)` (channels-query.js lines 157-187).  The
`index - 1` of the recency result is truncated `Nat` subtraction; that branch
is only reached with `oldIndex < index` (the scan records `oldIndex` only at a
position it then moves past), so `index ≥ 1` there and truncation never
differs from the JS arithmetic. -/
def getInsertIndex (sortField : SortField) (channel : Entity) (data : List Entity) : Nat :=
  if !channel.isSaved then 0
  else
    match sortField with
    | SortField.created_at => createdAtScan channel data
    | SortField.last_message =>
      match recencyScan channel (derivedKey channel) data with
      | (index, none) => index
      | (index, some oldIndex) => if oldIndex > index then index else index - 1

/-- The stop condition of the `created_at` scan, as the spec words it: the
item is not NEW/SAVING and its `createdAt` is at most the candidate's. -/
def createdStop (c item : Entity) : Bool :=
  !isUnsynced item && decide (item.createdAt ≤ c.createdAt)

/-- The stop condition of the recency scan, as the spec words it: another
item (different ID), not NEW/SAVING, whose derived key is at most `d1`. -/
def recencyStop (c : Entity) (d1 : Int) (item : Entity) : Bool :=
  !(item.id == c.id) && !isUnsynced item && decide (derivedKey item ≤ d1)

theorem createdAtScan_le_length (c : Entity) :
    ∀ data : List Entity, createdAtScan c data ≤ data.length := by
  intro data
  induction data with
  | nil => simp [createdAtScan]
  | cons item rest ih =>
    simp only [createdAtScan, List.length_cons]
    split
    · omega
    · split
      · omega
      · omega

theorem createdAtScan_before (c : Entity) :
    ∀ (data : List Entity) (j : Nat), j < createdAtScan c data →
      ∀ e, data.get? j = some e → createdStop c e = false := by
  intro data
  induction data with
  | nil => intro j hj e he; simp [createdAtScan] at hj
  | cons item rest ih =>
    intro j hj e he
    simp only [createdAtScan] at hj
    by_cases hu : isUnsynced item
    · simp only [hu, if_pos] at hj
      match j with
      | 0 =>
        simp only [List.get?_cons_zero, Option.some.injEq] at he
        subst he
        simp [createdStop, hu]
      | j' + 1 =>
        simp only [List.get?_cons_succ] at he
        exact ih j' (by omega) e he
    · simp only [hu, if_neg, Bool.false_eq_true, not_false_iff, if_false] at hj
      by_cases hge : c.createdAt ≥ item.createdAt
      · simp [hge] at hj
      · simp only [hge, if_false] at hj
        match j with
        | 0 =>
          simp only [List.get?_cons_zero, Option.some.injEq] at he
          subst he
          simp only [createdStop, Bool.and_eq_false_iff]
          right
          simp only [decide_eq_false_iff_not]
          omega
        | j' + 1 =>
          simp only [List.get?_cons_succ] at he
          exact ih j' (by omega) e he

theorem createdAtScan_at (c : Entity) :
    ∀ (data : List Entity) (e : Entity),
      data.get? (createdAtScan c data) = some e → createdStop c e = true := by
  intro data
  induction data with
  | nil => intro e he; simp at he
  | cons item rest ih =>
    intro e he
    simp only [createdAtScan] at he ⊢
    by_cases hu : isUnsynced item
    · simp only [hu, if_pos, List.get?_cons_succ] at he
      exact ih e he
    · simp only [hu, Bool.false_eq_true, not_false_iff, if_neg, if_false] at he
      by_cases hge : c.createdAt ≥ item.createdAt
      · simp only [hge, if_pos, List.get?_cons_zero, Option.some.injEq] at he
        subst he
        simp only [createdStop, hu, Bool.not_false, Bool.true_and, decide_eq_true_eq]
        omega
      · simp only [hge, if_false, List.get?_cons_succ] at he
        exact ih e he

theorem recencyScan_cons (c : Entity) (d1 : Int) (item : Entity) (rest : List Entity) :
    recencyScan c d1 (item :: rest) =
      (if item.id == c.id then
        ((recencyScan c d1 rest).1 + 1,
          some (match (recencyScan c d1 rest).2 with | some j => j + 1 | none => 0))
      else if isUnsynced item then
        ((recencyScan c d1 rest).1 + 1, (recencyScan c d1 rest).2.map (· + 1))
      else if d1 ≥ derivedKey item then (0, none)
      else ((recencyScan c d1 rest).1 + 1, (recencyScan c d1 rest).2.map (· + 1))) := by
  rcases h : recencyScan c d1 rest with ⟨i, o⟩
  simp only [recencyScan, h]
  cases o <;> rfl

theorem recencyScan_fst_le_length (c : Entity) (d1 : Int) :
    ∀ data : List Entity, (recencyScan c d1 data).1 ≤ data.length := by
  intro data
  induction data with
  | nil => simp [recencyScan]
  | cons item rest ih =>
    rw [recencyScan_cons]
    by_cases h1 : item.id == c.id
    · simp only [h1, if_pos, List.length_cons]; omega
    · simp only [h1, if_neg, Bool.false_eq_true, not_false_iff, if_false]
      by_cases h2 : isUnsynced item
      · simp only [h2, if_pos, List.length_cons]; omega
      · simp only [h2, Bool.false_eq_true, not_false_iff, if_neg, if_false]
        by_cases h3 : d1 ≥ derivedKey item
        · simp only [h3, if_pos, List.length_cons]; omega
        · simp only [h3, if_false, List.length_cons]; omega

theorem recencyScan_before (c : Entity) (d1 : Int) :
    ∀ (data : List Entity) (j : Nat), j < (recencyScan c d1 data).1 →
      ∀ e, data.get? j = some e → recencyStop c d1 e = false := by
  intro data
  induction data with
  | nil => intro j hj e he; simp [recencyScan] at hj
  | cons item rest ih =>
    intro j hj e he
    rw [recencyScan_cons] at hj
    by_cases h1 : item.id == c.id
    · simp only [h1, if_pos] at hj
      match j with
      | 0 =>
        simp only [List.get?_cons_zero, Option.some.injEq] at he
        subst he
        simp only [recencyStop, h1, Bool.not_true, Bool.false_and]
      | j' + 1 =>
        simp only [List.get?_cons_succ] at he
        exact ih j' (by omega) e he
    · simp only [h1, if_neg, Bool.false_eq_true, not_false_iff, if_false] at hj
      by_cases h2 : isUnsynced item
      · simp only [h2, if_pos] at hj
        match j with
        | 0 =>
          simp only [List.get?_cons_zero, Option.some.injEq] at he
          subst he
          simp [recencyStop, h2]
        | j' + 1 =>
          simp only [List.get?_cons_succ] at he
          exact ih j' (by omega) e he
      · simp only [h2, Bool.false_eq_true, not_false_iff, if_neg, if_false] at hj
        by_cases h3 : d1 ≥ derivedKey item
        · simp only [h3, if_pos] at hj
          omega
        · simp only [h3, if_false] at hj
          match j with
          | 0 =>
            simp only [List.get?_cons_zero, Option.some.injEq] at he
            subst he
            simp only [recencyStop, Bool.and_eq_false_iff]
            right
            simp only [decide_eq_false_iff_not]
            omega
          | j' + 1 =>
            simp only [List.get?_cons_succ] at he
            exact ih j' (by omega) e he

theorem recencyScan_at (c : Entity) (d1 : Int) :
    ∀ (data : List Entity) (e : Entity),
      data.get? (recencyScan c d1 data).1 = some e → recencyStop c d1 e = true := by
  intro data
  induction data with
  | nil => intro e he; simp [recencyScan] at he
  | cons item rest ih =>
    intro e he
    rw [recencyScan_cons] at he
    by_cases h1 : item.id == c.id
    · simp only [h1, if_pos, List.get?_cons_succ] at he
      exact ih e he
    · simp only [h1, if_neg, Bool.false_eq_true, not_false_iff, if_false] at he
      by_cases h2 : isUnsynced item
      · simp only [h2, if_pos, List.get?_cons_succ] at he
        exact ih e he
      · simp only [h2, Bool.false_eq_true, not_false_iff, if_neg, if_false] at he
        by_cases h3 : d1 ≥ derivedKey item
        · simp only [h3, if_pos, List.get?_cons_zero, Option.some.injEq] at he
          subst he
          simp only [recencyStop, h1, h2, Bool.not_false, Bool.true_and,
            decide_eq_true_eq]
          omega
        · simp only [h3, if_false, List.get?_cons_succ] at he
          exact ih e he

theorem recencyScan_old_none (c : Entity) (d1 : Int) :
    ∀ (data : List Entity), (recencyScan c d1 data).2 = none →
      ∀ j, j < (recencyScan c d1 data).1 →
        ∀ e, data.get? j = some e → (e.id == c.id) = false := by
  intro data
  induction data with
  | nil => intro _ j hj e he; simp [recencyScan] at hj
  | cons item rest ih =>
    rcases hr : recencyScan c d1 rest with ⟨ri, ro⟩
    rw [hr] at ih
    intro hnone j hj e he
    rw [recencyScan_cons, hr] at hnone hj
    by_cases h1 : item.id == c.id
    · rcases ro with _ | j2 <;> simp [h1] at hnone
    · by_cases h2 : isUnsynced item
      · rcases ro with _ | j2
        · simp only [h1, Bool.false_eq_true, not_false_iff, if_neg, h2, if_pos,
            Option.map_none'] at hnone hj
          match j with
          | 0 =>
            simp only [List.get?_cons_zero, Option.some.injEq] at he
            subst he
            exact Bool.of_not_eq_true h1
          | j' + 1 =>
            simp only [List.get?_cons_succ] at he
            exact ih rfl j' (by omega) e he
        · simp [h1, h2] at hnone
      · by_cases h3 : d1 ≥ derivedKey item
        · simp [h1, h2, h3] at hj
        · rcases ro with _ | j2
          · simp only [h1, Bool.false_eq_true, not_false_iff, if_neg, h2, h3, if_false,
              Option.map_none'] at hnone hj
            match j with
            | 0 =>
              simp only [List.get?_cons_zero, Option.some.injEq] at he
              subst he
              exact Bool.of_not_eq_true h1
            | j' + 1 =>
              simp only [List.get?_cons_succ] at he
              exact ih rfl j' (by omega) e he
          · simp [h1, h2, h3] at hnone

theorem recencyScan_old_some (c : Entity) (d1 : Int) :
    ∀ (data : List Entity) (oi : Nat), (recencyScan c d1 data).2 = some oi →
      oi < (recencyScan c d1 data).1 ∧
        ∃ e, data.get? oi = some e ∧ (e.id == c.id) = true := by
  intro data
  induction data with
  | nil => intro oi h; simp [recencyScan] at h
  | cons item rest ih =>
    rcases hr : recencyScan c d1 rest with ⟨ri, ro⟩
    rw [hr] at ih
    intro oi hsome
    rw [recencyScan_cons, hr] at hsome ⊢
    by_cases h1 : item.id == c.id
    · rcases ro with _ | j2
      · simp only [h1, if_pos, Option.some.injEq] at hsome ⊢
        subst hsome
        exact ⟨Nat.succ_pos ri, item, by simp [h1]⟩
      · simp only [h1, if_pos, Option.some.injEq] at hsome ⊢
        subst hsome
        rcases ih j2 rfl with ⟨hlt, e, hget, hid⟩
        exact ⟨Nat.succ_lt_succ hlt, e, by simpa using hget, hid⟩
    · by_cases h2 : isUnsynced item
      · rcases ro with _ | j2
        · simp [h1, h2] at hsome
        · simp only [h1, Bool.false_eq_true, not_false_iff, if_neg, h2, if_pos,
            Option.map_some', Option.some.injEq] at hsome ⊢
          subst hsome
          rcases ih j2 rfl with ⟨hlt, e, hget, hid⟩
          exact ⟨Nat.succ_lt_succ hlt, e, by simpa using hget, hid⟩
      · by_cases h3 : d1 ≥ derivedKey item
        · simp [h1, h2, h3] at hsome
        · rcases ro with _ | j2
          · simp [h1, h2, h3] at hsome
          · simp only [h1, Bool.false_eq_true, not_false_iff, if_neg, h2, h3, if_false,
              Option.map_some', Option.some.injEq] at hsome ⊢
            subst hsome
            rcases ih j2 rfl with ⟨hlt, e, hget, hid⟩
            exact ⟨Nat.succ_lt_succ hlt, e, by simpa using hget, hid⟩

theorem getInsertIndex_created_eq (c : Entity) (data : List Entity)
    (hsaved : c.isSaved = true) :
    getInsertIndex SortField.created_at c data = createdAtScan c data := by
  simp [getInsertIndex, hsaved]

/-- C2: for creation-time sort and a saved candidate, `_getInsertIndex`
returns the position of the first item that is not in NEW or SAVING sync
state and whose `createdAt` is at most the candidate's (NEW/SAVING items are
passed over without a comparison, so the candidate is never inserted before
them by a stop at their position), or the array length when no such item
exists; in particular with a NEW item at index 0 the returned index is never
0, and for a one-element array holding a NEW item with earlier `createdAt`
the saved candidate is inserted at index 1. -/
theorem createdAt_insertIndex_characterized (c : Entity) (data : List Entity)
    (hsaved : c.isSaved = true) :
    getInsertIndex SortField.created_at c data ≤ data.length
    ∧ (∀ j, j < getInsertIndex SortField.created_at c data →
        ∀ e, data.get? j = some e → createdStop c e = false)
    ∧ (∀ e, data.get? (getInsertIndex SortField.created_at c data) = some e →
        createdStop c e = true)
    ∧ (∀ e rest, e.syncState = SyncState.NEW →
        1 ≤ getInsertIndex SortField.created_at c (e :: rest))
    ∧ (∀ e, e.syncState = SyncState.NEW → e.createdAt < c.createdAt →
        getInsertIndex SortField.created_at c [e] = 1) := by
  rw [getInsertIndex_created_eq c data hsaved]
  refine ⟨createdAtScan_le_length c data,
    createdAtScan_before c data,
    createdAtScan_at c data, ?_, ?_⟩
  · intro e rest hNew
    rw [getInsertIndex_created_eq c _ hsaved]
    have hu : isUnsynced e = true := by simp [isUnsynced, hNew]
    simp only [createdAtScan, hu, if_pos]
    omega
  · intro e hNew _
    rw [getInsertIndex_created_eq c _ hsaved]
    have hu : isUnsynced e = true := by simp [isUnsynced, hNew]
    simp [createdAtScan, hu]

/-- Sample entities used by concrete witnesses and counterexamples. -/
def eNew : Entity :=
  { id := "layer:///channels/new1", syncState := SyncState.NEW, createdAt := 3,
    lastMessage := none, saved := false }

def cSrv : Entity :=
  { id := "layer:///channels/srv1", syncState := SyncState.SYNCED, createdAt := 5,
    lastMessage := none, saved := true }

def eOld : Entity :=
  { id := "layer:///channels/old1", syncState := SyncState.SYNCED, createdAt := 1,
    lastMessage := some 2, saved := true }

theorem createdAt_insertIndex_characterized_w :
    cSrv.isSaved = true ∧ getInsertIndex SortField.created_at cSrv [eNew] = 1 :=
  ⟨by decide,
    (createdAt_insertIndex_characterized cSrv [eNew] (by decide)).2.2.2.2 eNew
      (by decide) (by decide)⟩

theorem getInsertIndex_recency_eq (c : Entity) (data : List Entity)
    (hsaved : c.isSaved = true) :
    getInsertIndex SortField.last_message c data =
      (match recencyScan c (derivedKey c) data with
       | (index, none) => index
       | (index, some oldIndex) => if oldIndex > index then index else index - 1) := by
  simp [getInsertIndex, hsaved]

/-- C1 (amended): for recency sort and a saved candidate, `_getInsertIndex`
scans forward: `index` stops at the first other item (different ID, not
NEW/SAVING) whose derived key (`lastMessage.sentAt` if present, else
`createdAt`) is at most the candidate's derived key, or the array length;
`oldIndex` records the position of an item carrying the candidate's ID inside
the scanned prefix; and the returned value is `index` — not `oldIndex` —
when no item with the candidate's ID was found or `oldIndex > index`, else
`index - 1`. -/
theorem recency_insertIndex_characterized (c : Entity) (data : List Entity)
    (hsaved : c.isSaved = true) :
    ∀ index oldIndex, recencyScan c (derivedKey c) data = (index, oldIndex) →
      index ≤ data.length
      ∧ (∀ j, j < index → ∀ e, data.get? j = some e →
          recencyStop c (derivedKey c) e = false)
      ∧ (∀ e, data.get? index = some e → recencyStop c (derivedKey c) e = true)
      ∧ (oldIndex = none → ∀ j, j < index → ∀ e, data.get? j = some e →
          (e.id == c.id) = false)
      ∧ (∀ oi, oldIndex = some oi → oi < index ∧
          ∃ e, data.get? oi = some e ∧ (e.id == c.id) = true)
      ∧ getInsertIndex SortField.last_message c data =
          (match oldIndex with
           | none => index
           | some oi => if oi > index then index else index - 1) := by
  intro index oldIndex h
  have hlen := recencyScan_fst_le_length c (derivedKey c) data
  have hbefore := recencyScan_before c (derivedKey c) data
  have hat := recencyScan_at c (derivedKey c) data
  have hnone := recencyScan_old_none c (derivedKey c) data
  have hsome := recencyScan_old_some c (derivedKey c) data
  rw [h] at hlen hbefore hat hnone hsome
  refine ⟨hlen, hbefore, hat, ?_, ?_, ?_⟩
  · intro ho
    exact hnone ho
  · intro oi ho
    exact hsome oi ho
  · rw [getInsertIndex_recency_eq c data hsaved, h]
    cases oldIndex <;> rfl

/-- Candidate channel for the recency witness: same ID as `chAold`, newer
last-message time. -/
def chA : Entity :=
  { id := "layer:///channels/a", syncState := SyncState.SYNCED, createdAt := 10,
    lastMessage := some 50, saved := true }

/-- Stale entry for `chA` already sitting in the result array. -/
def chAold : Entity :=
  { id := "layer:///channels/a", syncState := SyncState.SYNCED, createdAt := 10,
    lastMessage := some 20, saved := true }

def chB : Entity :=
  { id := "layer:///channels/b", syncState := SyncState.SYNCED, createdAt := 11,
    lastMessage := some 30, saved := true }

theorem recency_insertIndex_characterized_w :
    getInsertIndex SortField.last_message chA [chAold, chB] = 0 :=
  ((recency_insertIndex_characterized chA [chAold, chB] (by decide) 1 (some 0)
      (by decide)).2.2.2.2.2).trans (by decide)

/-- Claim C1's literal final-index formula: "`oldIndex` if no item with the
candidate's ID was found or `oldIndex > index`, else `index - 1`", with the JS
not-found sentinel `oldIndex = -1`, as an integer-valued function. -/
def claimedRecencyResult (c : Entity) (data : List Entity) : Int :=
  match recencyScan c (derivedKey c) data with
  | (_, none) => -1
  | (index, some oi) => if oi > index then (oi : Int) else (index : Int) - 1

/-- C1 counterexample: for a saved candidate and a one-element array holding a
synced item with an older derived key, the scan breaks at index 0 with no item
carrying the candidate's ID, the code (`oldIndex === -1 || oldIndex > index ?
index : index - 1`) returns `index = 0`, while the claim's formula — the
returned index is `oldIndex` in that case — yields `-1`. -/
theorem recency_claim_formula_counterexample :
    (getInsertIndex SortField.last_message cSrv [eOld] : Int) = 0
    ∧ claimedRecencyResult cSrv [eOld] = -1
    ∧ ((getInsertIndex SortField.last_message cSrv [eOld] : Int)
        ≠ claimedRecencyResult cSrv [eOld]) := by decide

/-- C6: a candidate entity with `isSaved() == false` gets insert index 0
unconditionally, for either sort field and any contents of the sorted
array (channels-query.js line 158). -/
theorem unsaved_insertIndex_zero (sf : SortField) (c : Entity) (data : List Entity)
    (h : c.isSaved = false) : getInsertIndex sf c data = 0 := by
  simp [getInsertIndex, h]

theorem unsaved_insertIndex_zero_w :
    eNew.isSaved = false ∧ getInsertIndex SortField.last_message eNew [eOld, cSrv] = 0 :=
  ⟨by decide, unsaved_insertIndex_zero SortField.last_message eNew [eOld, cSrv] (by decide)⟩

/-- Query.ObjectDataType (immutable snapshot objects) versus
Query.InstanceDataType (live shared instances). -/
inductive DataType
  | ObjectDataType
  | InstanceDataType
  deriving DecidableEq, Repr

/-- Modelled from the spec: the Data Projector (`_getData` / `toObject()` on
the base Query class, which is not among the sources at hand) returns the
shared instance for InstanceDataType and a structural snapshot of the
entity's public fields for ObjectDataType; as a pure value both coincide with
the entity itself.  Array-object identity, which snapshot mode does change,
is tracked separately through the allocation tokens of `QueryState`. -/
def getData (dataType : DataType) (e : Entity) : Entity := e

/-- Modelled from the spec: `_getIndex(id)` on the base Query class (not
among the sources at hand) locates an item's index by ID; the JS `-1`
sentinel is modelled as `none`. -/
def getIndex (data : List Entity) (id : String) : Option Nat :=
  match data with
  | [] => none
  | e :: rest => if e.id == id then some 0 else (getIndex rest id).map (· + 1)

/-- Removal splice `data.splice(i, 1)`. -/
def spliceRemove (data : List Entity) (i : Nat) : List Entity :=
  data.take i ++ data.drop (i + 1)

/-- Insertion splice `data.splice(i, 0, x)`. -/
def spliceInsert (data : List Entity) (i : Nat) (x : Entity) : List Entity :=
  data.take i ++ x :: data.drop i

/-- State of a query controller relevant to the claims: the contents of the
`data` array; an allocation token `dataRef` identifying which array object
`this.data` currently refers to (each JS array allocation — `[].concat`,
spread literals, `.concat([])` — receives the fresh token `nextRef`, which is
then bumped; the in-place `splice`, `push` and `unshift` keep the token);
`totalSize`; the pagination cursors; and the firing-request bookkeeping of
`_fetchData`. -/
structure QueryState where
  data : List Entity
  dataRef : Nat
  nextRef : Nat
  totalSize : Int
  isFiring : Bool
  firingRequest : String
  nextDBFromId : Option String
  nextServerFromId : Option String
  deriving DecidableEq, Repr

/-- One `_triggerChange` notification (modelled from the spec: the base
Query's `_triggerChange` delivers deltas to consumers in mutation order; here
they are collected in an ordered list).  Only the payload fields the claims
mention are carried. -/
inductive Delta
  | insert (index : Nat) (target : Entity)
  | remove (index : Nat) (target : Entity)
  | property (target : Entity)
  | move (fromIndex : Nat) (toIndex : Nat) (target : Entity)
  deriving DecidableEq, Repr

def Delta.isProperty : Delta → Bool
  | Delta.property _ => true
  | _ => false

def Delta.isMove : Delta → Bool
  | Delta.move _ _ _ => true
  | _ => false

def Delta.isInsert : Delta → Bool
  | Delta.insert _ _ => true
  | _ => false

/-- The parts of a `channels:change` event read by `_handleChangeEvent`: the
(already mutated) target entity, whether the change set contains the
`lastMessage` property (`evt.hasProperty('lastMessage')`), and the old value
of an `id` change when the change set contains one
(`evt.getChangesFor('id')[0].oldValue`). -/
structure ChangeEvent where
  target : Entity
  hasLastMessage : Bool
  idOldValue : Option String
  deriving DecidableEq, Repr

/-- The index lookup of `_handleChangeEvent` (channels-query.js lines 89-98):
`_getIndex` of the target's ID, overridden for ObjectDataType by a lookup of
the old ID whenever the change set contains an `id` change. -/
def changeEffectiveIndex (dataType : DataType) (data : List Entity)
    (evt : ChangeEvent) : Option Nat :=
  if dataType = DataType.ObjectDataType then
    match evt.idOldValue with
    | some oldId => getIndex data oldId
    | none => getIndex data evt.target.id
  else getIndex data evt.target.id

/-- `_handleChangeEvent` (channels-query.js lines 88-155), with
`this._getSortField()` and `this.dataType` passed as parameters.  Returns the
updated state and the triggered deltas in order.  For ObjectDataType without
reorder the changed slot is replaced inside a fresh array; with reorder the
entity is splice-removed and splice-reinserted and `this.data` reassigned to
`this.data.concat([])`; for InstanceDataType the array is touched (in place)
only when a reorder moves the entity.  The `property` delta always precedes
the conditional `move` delta. -/
def handleChangeEvent (dataType : DataType) (sortField : SortField)
    (st : QueryState) (evt : ChangeEvent) : QueryState × List Delta :=
  match changeEffectiveIndex dataType st.data evt with
  | none => (st, [])
  | some index =>
    let reorder := evt.hasLastMessage && sortField == SortField.last_message
    if dataType = DataType.ObjectDataType then
      if !reorder then
        ({ st with
            data := st.data.take index ++ getData dataType evt.target :: st.data.drop (index + 1)
            dataRef := st.nextRef
            nextRef := st.nextRef + 1 },
         [Delta.property evt.target])
      else
        let newIndex := getInsertIndex sortField evt.target st.data
        let st1 : QueryState :=
          { st with
              data := spliceInsert (spliceRemove st.data index) newIndex
                        (getData dataType evt.target)
              dataRef := st.nextRef
              nextRef := st.nextRef + 1 }
        if newIndex ≠ index then
          (st1, [Delta.property evt.target, Delta.move index newIndex evt.target])
        else (st1, [Delta.property evt.target])
    else
      if reorder then
        let newIndex := getInsertIndex sortField evt.target st.data
        if newIndex ≠ index then
          ({ st with data := spliceInsert (spliceRemove st.data index) newIndex evt.target },
           [Delta.property evt.target, Delta.move index newIndex evt.target])
        else (st, [Delta.property evt.target])
      else (st, [Delta.property evt.target])

/-- The `list.forEach` loop of `_handleAddEvent` (channels-query.js lines
197-214), one recursive step per entity: compute the insertion index against
the current array contents, splice the projected entity in, reassign
`this.data` to a fresh `[].concat(data)` for ObjectDataType, bump
`totalSize`, and trigger an `insert` delta carrying the index and target.
This function is the state part of one step. -/
def addStepState (dataType : DataType) (st : QueryState) (newIndex : Nat)
    (item : Entity) : QueryState :=
  if dataType = DataType.ObjectDataType then
    { st with
        data := spliceInsert st.data newIndex item
        dataRef := st.nextRef
        nextRef := st.nextRef + 1
        totalSize := st.totalSize + 1 }
  else
    { st with
        data := spliceInsert st.data newIndex item
        totalSize := st.totalSize + 1 }

/-- The recursion over the filtered entity list of `_handleAddEvent`,
accumulating the state and the triggered `insert` deltas in order. -/
def addLoop (dataType : DataType) (sortField : SortField)
    (st : QueryState) (deltas : List Delta) : List Entity → QueryState × List Delta
  | [] => (st, deltas)
  | channel :: rest =>
    let newIndex := getInsertIndex sortField channel st.data
    let item := getData dataType channel
    addLoop dataType sortField (addStepState dataType st newIndex item)
      (deltas ++ [Delta.insert newIndex item]) rest

/-- `_handleAddEvent` (channels-query.js lines 189-216): filter the event's
entities down to those whose ID is not already present — checked against the
array as it was before any insertion of this event — then run the insertion
loop over the remainder. -/
def handleAddEvent (dataType : DataType) (sortField : SortField)
    (st : QueryState) (channels : List Entity) : QueryState × List Delta :=
  addLoop dataType sortField st []
    (channels.filter (fun c => (getIndex st.data c.id).isNone))

/-- Modelled from the spec: `_updateNextFromId(index)` on the base Query
class (not among the sources at hand) recomputes a pagination cursor after a
removal to the ID of the item preceding that position, or to no cursor when
the removal happened at the front. -/
def updateNextFromId (data : List Entity) (index : Nat) : Option String :=
  if index > 0 then (data.get? (index - 1)).map Entity.id else none

/-- The `evt[name].forEach` loop of `_handleRemoveEvent` (channels-query.js
lines 221-236): locate each entity by ID; when found, recompute the cursors
that pointed at it, record it together with its index in `removed`, and
splice it out (fresh array object for ObjectDataType, in-place splice for
InstanceDataType). -/
def removeCursorState (st : QueryState) (channel : Entity) (index : Nat) : QueryState :=
  { st with
      nextDBFromId := if st.nextDBFromId = some channel.id then
          updateNextFromId st.data index else st.nextDBFromId
      nextServerFromId := if st.nextServerFromId = some channel.id then
          updateNextFromId st.data index else st.nextServerFromId }

/-- The splice part of one removal step: fresh array object for
ObjectDataType, in-place splice for InstanceDataType. -/
def removeStepState (dataType : DataType) (st : QueryState) (index : Nat) : QueryState :=
  if dataType = DataType.ObjectDataType then
    { st with
        data := spliceRemove st.data index
        dataRef := st.nextRef
        nextRef := st.nextRef + 1 }
  else { st with data := spliceRemove st.data index }

/-- The recursion over the event's entity list for `_handleRemoveEvent`. -/
def removeLoop (dataType : DataType) (st : QueryState)
    (removed : List (Entity × Nat)) : List Entity → QueryState × List (Entity × Nat)
  | [] => (st, removed)
  | channel :: rest =>
    match getIndex st.data channel.id with
    | none => removeLoop dataType st removed rest
    | some index =>
      removeLoop dataType (removeStepState dataType (removeCursorState st channel index) index)
        (removed ++ [(channel, index)]) rest

/-- `_handleRemoveEvent` (channels-query.js lines 219-247): run the removal
loop, subtract the number of removals from `totalSize`, then trigger one
`remove` delta per recorded removal, in order. -/
def handleRemoveEvent (dataType : DataType) (st : QueryState)
    (channels : List Entity) : QueryState × List Delta :=
  match removeLoop dataType st [] channels with
  | (st1, removed) =>
    ({ st1 with totalSize := st1.totalSize - removed.length },
     removed.map (fun p => Delta.remove p.2 (getData dataType p.1)))

/-- The request signature built by `ChannelsQuery._fetchData` (lines 35-36):
the cursor suffix is present exactly when `_nextServerFromId` is set. -/
def channelsRequestUrl (pageSize : Nat) (nextServerFromId : Option String) : String :=
  "channels?page_size=" ++ toString pageSize ++
    (match nextServerFromId with
     | some id => "&from_id=" ++ id
     | none => "")

/-- The request signature built by `IdentitiesQuery._fetchData` (lines 36-37). -/
def identitiesRequestUrl (pageSize : Nat) (nextServerFromId : Option String) : String :=
  "identities?page_size=" ++ toString pageSize ++
    (match nextServerFromId with
     | some id => "&from_id=" ++ id
     | none => "")

/-- The network phase of `_fetchData` (channels-query.js lines 35-49 and
identities-query.js lines 36-51), parameterized by the URL builder of the
subclass: when the newly built request differs from `_firingRequest`, mark
the query as firing, record the request and issue it (returned as
`some url`); otherwise leave the state untouched and issue nothing. -/
def fetchDataNetwork (buildUrl : Nat → Option String → String)
    (st : QueryState) (pageSize : Nat) : QueryState × Option String :=
  let newRequest := buildUrl pageSize st.nextServerFromId
  if newRequest ≠ st.firingRequest then
    ({ st with isFiring := true, firingRequest := newRequest }, some newRequest)
  else (st, none)

/-- `ChannelsQuery._appendResultsSplice` (lines 84-86):
`this.data.unshift(this._getData(item))`, an in-place prepend at index 0. -/
def channelsAppendResultsSplice (dataType : DataType) (st : QueryState)
    (item : Entity) : QueryState :=
  { st with data := getData dataType item :: st.data }

/-- `IdentitiesQuery._appendResultsSplice` (lines 54-56):
`this.data.push(this._getData(item))`, an in-place append at the tail. -/
def identitiesAppendResultsSplice (dataType : DataType) (st : QueryState)
    (item : Entity) : QueryState :=
  { st with data := st.data ++ [getData dataType item] }

/-- Claim C3's expectation for the per-item local-cache merge: the item
spliced in at the index computed by the Insert-Order Resolver. -/
def resolverMergedData (dataType : DataType) (sortField : SortField)
    (st : QueryState) (item : Entity) : List Entity :=
  spliceInsert st.data (getInsertIndex sortField item st.data) (getData dataType item)

/-- Concrete controller states used by witnesses and counterexamples. -/
def stEmpty : QueryState :=
  { data := [], dataRef := 0, nextRef := 1, totalSize := 0, isFiring := false,
    firingRequest := "", nextDBFromId := none, nextServerFromId := none }

def stOne : QueryState :=
  { data := [eOld], dataRef := 0, nextRef := 1, totalSize := 1, isFiring := false,
    firingRequest := "", nextDBFromId := none, nextServerFromId := none }

def stSrv : QueryState :=
  { data := [cSrv], dataRef := 0, nextRef := 1, totalSize := 1, isFiring := false,
    firingRequest := "", nextDBFromId := none, nextServerFromId := none }

def stBA : QueryState :=
  { data := [chB, chAold], dataRef := 0, nextRef := 1, totalSize := 2, isFiring := false,
    firingRequest := "", nextDBFromId := none, nextServerFromId := none }

def stFiring : QueryState :=
  { data := [], dataRef := 0, nextRef := 1, totalSize := 0, isFiring := true,
    firingRequest := channelsRequestUrl 50 none, nextDBFromId := none,
    nextServerFromId := none }

/-- C9: the network phase of `_fetchData` is a no-op — no request issued,
`isFiring` and `_firingRequest` untouched — whenever the freshly computed
request signature (URL built from the page size and the server cursor)
equals the currently firing request, and a request is issued only when the
signature differs; this holds for ChannelsQuery and IdentitiesQuery alike. -/
theorem fetchData_duplicate_request_suppressed (st : QueryState) (pageSize : Nat) :
    (channelsRequestUrl pageSize st.nextServerFromId = st.firingRequest →
      fetchDataNetwork channelsRequestUrl st pageSize = (st, none))
    ∧ ((fetchDataNetwork channelsRequestUrl st pageSize).2.isSome = true →
      channelsRequestUrl pageSize st.nextServerFromId ≠ st.firingRequest)
    ∧ (identitiesRequestUrl pageSize st.nextServerFromId = st.firingRequest →
      fetchDataNetwork identitiesRequestUrl st pageSize = (st, none))
    ∧ ((fetchDataNetwork identitiesRequestUrl st pageSize).2.isSome = true →
      identitiesRequestUrl pageSize st.nextServerFromId ≠ st.firingRequest) := by
  refine ⟨?_, ?_, ?_, ?_⟩
  · intro h
    simp [fetchDataNetwork, h]
  · intro hs heq
    simp [fetchDataNetwork, heq] at hs
  · intro h
    simp [fetchDataNetwork, h]
  · intro hs heq
    simp [fetchDataNetwork, heq] at hs

theorem fetchData_duplicate_request_suppressed_w :
    fetchDataNetwork channelsRequestUrl stFiring 50 = (stFiring, none) :=
  (fetchData_duplicate_request_suppressed stFiring 50).1 rfl

/-- C3 (amended): the per-item local-cache merge `_appendResultsSplice` does
not consult the Insert-Order Resolver: ChannelsQuery prepends each item at
index 0 of `data` (unshift) while IdentitiesQuery appends it at the tail
(push); in both cases the existing items keep their relative positions. -/
theorem appendResultsSplice_positions (dt : DataType) (st : QueryState) (item : Entity) :
    (channelsAppendResultsSplice dt st item).data.get? 0 = some (getData dt item)
    ∧ (channelsAppendResultsSplice dt st item).data.length = st.data.length + 1
    ∧ (∀ j, (channelsAppendResultsSplice dt st item).data.get? (j + 1) = st.data.get? j)
    ∧ (identitiesAppendResultsSplice dt st item).data.get? st.data.length
        = some (getData dt item)
    ∧ (identitiesAppendResultsSplice dt st item).data.length = st.data.length + 1
    ∧ (∀ j, j < st.data.length →
        (identitiesAppendResultsSplice dt st item).data.get? j = st.data.get? j) := by
  refine ⟨rfl, by simp [channelsAppendResultsSplice], fun j => rfl, ?_, ?_, ?_⟩
  · simp [identitiesAppendResultsSplice, List.get?_concat_length]
  · simp [identitiesAppendResultsSplice]
  · intro j hj
    simp only [identitiesAppendResultsSplice]
    exact List.get?_append hj

theorem appendResultsSplice_positions_w :
    (identitiesAppendResultsSplice DataType.InstanceDataType stOne cSrv).data.get? 0
      = stOne.data.get? 0
    ∧ (channelsAppendResultsSplice DataType.InstanceDataType stOne cSrv).data.get? 0
      = some (getData DataType.InstanceDataType cSrv) :=
  ⟨(appendResultsSplice_positions DataType.InstanceDataType stOne cSrv).2.2.2.2.2 0
      (by decide),
    (appendResultsSplice_positions DataType.InstanceDataType stOne cSrv).1⟩

/-- C3 counterexample: the array holds one synced item with `createdAt = 5`;
a local-cache item with `createdAt = 1` would be placed at index 1 by the
Insert-Order Resolver under the creation-time sort `ChannelsQuery` pins, but
`ChannelsQuery._appendResultsSplice` unshifts it to index 0: the merged array
is not the resolver-ordered one the claim asserts. -/
theorem channels_cache_append_counterexample :
    (channelsAppendResultsSplice DataType.InstanceDataType stSrv eOld).data = [eOld, cSrv]
    ∧ getInsertIndex SortField.created_at eOld stSrv.data = 1
    ∧ resolverMergedData DataType.InstanceDataType SortField.created_at stSrv eOld
        = [cSrv, eOld]
    ∧ (channelsAppendResultsSplice DataType.InstanceDataType stSrv eOld).data
        ≠ resolverMergedData DataType.InstanceDataType SortField.created_at stSrv eOld := by
  decide

theorem removeLoop_absent (dt : DataType) (st : QueryState) :
    ∀ (channels : List Entity) (removed : List (Entity × Nat)),
      (∀ c ∈ channels, getIndex st.data c.id = none) →
      removeLoop dt st removed channels = (st, removed) := by
  intro channels
  induction channels with
  | nil => intro removed _; rfl
  | cons c rest ih =>
    intro removed h
    have hc : getIndex st.data c.id = none := h c (by simp)
    simp only [removeLoop, hc]
    exact ih removed (fun x hx => h x (by simp [hx]))

/-- C8: a `change` event whose referenced ID resolves to no present item and
a `remove` event none of whose entities are present are silent no-ops — the
state (array, `totalSize`, cursors, array-object token) is left unchanged and
no delta of any kind is emitted. -/
theorem absent_change_remove_noop (dt : DataType) (sf : SortField) (st : QueryState)
    (evt : ChangeEvent) (channels : List Entity) :
    (changeEffectiveIndex dt st.data evt = none →
      handleChangeEvent dt sf st evt = (st, []))
    ∧ ((∀ c ∈ channels, getIndex st.data c.id = none) →
      handleRemoveEvent dt st channels = (st, [])) := by
  constructor
  · intro h
    simp [handleChangeEvent, h]
  · intro h
    have hloop := removeLoop_absent dt st channels [] h
    simp [handleRemoveEvent, hloop]

def evtAbsent : ChangeEvent :=
  { target := eOld, hasLastMessage := true, idOldValue := none }

theorem absent_change_remove_noop_w :
    handleChangeEvent DataType.ObjectDataType SortField.last_message stSrv evtAbsent
      = (stSrv, [])
    ∧ handleRemoveEvent DataType.ObjectDataType stSrv [eOld] = (stSrv, []) :=
  ⟨(absent_change_remove_noop DataType.ObjectDataType SortField.last_message stSrv
      evtAbsent [eOld]).1 (by decide),
    (absent_change_remove_noop DataType.ObjectDataType SortField.last_message stSrv
      evtAbsent [eOld]).2 (by decide)⟩

theorem spliceInsert_length (data : List Entity) (i : Nat) (x : Entity) :
    (spliceInsert data i x).length = data.length + 1 := by
  simp [spliceInsert]
  omega

theorem spliceRemove_length (data : List Entity) (i : Nat) (h : i < data.length) :
    (spliceRemove data i).length = data.length - 1 := by
  simp only [spliceRemove, List.length_append, List.length_take, List.length_drop]
  omega

theorem spliceInsert_perm (data : List Entity) (i : Nat) (x : Entity) :
    (spliceInsert data i x).Perm (x :: data) := by
  have h := @List.perm_middle Entity x (data.take i) (data.drop i)
  simpa [spliceInsert, List.take_append_drop] using h

theorem getIndex_eq_none_iff (id : String) :
    ∀ data : List Entity, getIndex data id = none ↔ ∀ e ∈ data, (e.id == id) = false := by
  intro data
  induction data with
  | nil => simp [getIndex]
  | cons e rest ih =>
    by_cases h : e.id == id
    · constructor
      · intro hn
        simp [getIndex, h] at hn
      · intro hall
        have hfe := hall e (by simp)
        rw [h] at hfe
        cases hfe
    · simp only [getIndex, h, Bool.false_eq_true, not_false_iff, if_neg, if_false,
        Option.map_eq_none', List.mem_cons]
      constructor
      · intro hn x hx
        rcases hx with hx | hx
        · subst hx; exact Bool.of_not_eq_true h
        · exact (ih.mp hn) x hx
      · intro hall
        exact ih.mpr (fun x hx => hall x (Or.inr hx))

theorem getIndex_some_lt (id : String) :
    ∀ (data : List Entity) (i : Nat), getIndex data id = some i → i < data.length := by
  intro data
  induction data with
  | nil => intro i h; simp [getIndex] at h
  | cons e rest ih =>
    intro i h
    by_cases he : e.id == id
    · simp [getIndex, he] at h
      simp only [List.length_cons]
      omega
    · simp only [getIndex, he, Bool.false_eq_true, not_false_iff, if_neg, if_false] at h
      rcases hr : getIndex rest id with _ | j
      · rw [hr] at h; simp at h
      · rw [hr] at h
        simp only [Option.map_some', Option.some.injEq] at h
        subst h
        have := ih j hr
        simp only [List.length_cons]
        omega

theorem addStepState_data (dt : DataType) (st : QueryState) (n : Nat) (x : Entity) :
    (addStepState dt st n x).data = spliceInsert st.data n x := by
  by_cases h : dt = DataType.ObjectDataType <;> simp [addStepState, h]

theorem addStepState_totalSize (dt : DataType) (st : QueryState) (n : Nat) (x : Entity) :
    (addStepState dt st n x).totalSize = st.totalSize + 1 := by
  by_cases h : dt = DataType.ObjectDataType <;> simp [addStepState, h]

theorem addLoop_spec (dt : DataType) (sf : SortField) :
    ∀ (list : List Entity) (st : QueryState) (deltas : List Delta),
      (addLoop dt sf st deltas list).1.totalSize = st.totalSize + list.length
      ∧ (addLoop dt sf st deltas list).1.data.Perm (list.map (getData dt) ++ st.data)
      ∧ ∃ tail, (addLoop dt sf st deltas list).2 = deltas ++ tail
          ∧ tail.length = list.length
          ∧ (∀ d ∈ tail, d.isInsert = true)
          ∧ (∀ i d c, tail.get? i = some d → list.get? i = some c →
              ∃ k, d = Delta.insert k (getData dt c)) := by
  intro list
  induction list with
  | nil =>
    intro st deltas
    refine ⟨by simp [addLoop], by simp [addLoop], [], by simp [addLoop], rfl, ?_, ?_⟩
    · intro d hd; simp at hd
    · intro i d c hd hc; simp at hd
  | cons channel rest ih =>
    intro st deltas
    simp only [addLoop]
    obtain ⟨hts, hperm, tail, htail, hlen, hins, hcorr⟩ :=
      ih (addStepState dt st (getInsertIndex sf channel st.data) (getData dt channel))
        (deltas ++ [Delta.insert (getInsertIndex sf channel st.data) (getData dt channel)])
    refine ⟨?_, ?_, Delta.insert (getInsertIndex sf channel st.data) (getData dt channel) :: tail,
      ?_, ?_, ?_, ?_⟩
    · rw [hts, addStepState_totalSize]
      simp only [List.length_cons]
      push_cast
      ring
    · refine hperm.trans ?_
      rw [addStepState_data]
      refine (List.Perm.append_left _ (spliceInsert_perm _ _ _)).trans ?_
      simp only [List.map_cons, List.cons_append]
      exact List.perm_middle
    · rw [htail, List.append_assoc]
      rfl
    · simp [hlen]
    · intro d hd
      rcases List.mem_cons.mp hd with hd | hd
      · subst hd; rfl
      · exact hins d hd
    · intro i d c hd hc
      match i with
      | 0 =>
        simp only [List.get?_cons_zero, Option.some.injEq] at hd hc
        subst hd; subst hc
        exact ⟨getInsertIndex sf channel st.data, rfl⟩
      | i' + 1 =>
        simp only [List.get?_cons_succ] at hd hc
        exact hcorr i' d c hd hc

theorem removeLoop_spec (dt : DataType) :
    ∀ (list : List Entity) (st : QueryState) (removed : List (Entity × Nat)),
      (removeLoop dt st removed list).1.totalSize = st.totalSize
      ∧ (removeLoop dt st removed list).1.data.length + (removeLoop dt st removed list).2.length
          = st.data.length + removed.length := by
  intro list
  induction list with
  | nil => intro st removed; exact ⟨rfl, rfl⟩
  | cons channel rest ih =>
    intro st removed
    simp only [removeLoop]
    rcases hidx : getIndex st.data channel.id with _ | index
    · exact ih st removed
    · have hlt : index < st.data.length := getIndex_some_lt channel.id st.data index hidx
      obtain ⟨hts, hlen⟩ :=
        ih (removeStepState dt (removeCursorState st channel index) index)
          (removed ++ [(channel, index)])
      have hts2 : (removeStepState dt (removeCursorState st channel index) index).totalSize
          = st.totalSize := by
        by_cases h : dt = DataType.ObjectDataType <;>
          simp [removeStepState, removeCursorState, h]
      have hlen2 : (removeStepState dt (removeCursorState st channel index) index).data.length
          = st.data.length - 1 := by
        by_cases h : dt = DataType.ObjectDataType <;>
          simp [removeStepState, removeCursorState, h, spliceRemove_length _ _ hlt]
      constructor
      · rw [hts, hts2]
      · rw [hlen2] at hlen
        simp only [List.length_append, List.length_cons, List.length_nil] at hlen ⊢
        omega

/-- C5: starting from a state with `totalSize = items.length`, both the add
handler and the remove handler re-establish `totalSize = items.length`: each
spliced-in entity increments `totalSize` once, and one decrement is applied
per spliced-out entity. -/
theorem totalSize_matches_length (dt : DataType) (sf : SortField) (st : QueryState)
    (channelsA channelsR : List Entity)
    (h : st.totalSize = (st.data.length : Int)) :
    (handleAddEvent dt sf st channelsA).1.totalSize
      = ((handleAddEvent dt sf st channelsA).1.data.length : Int)
    ∧ (handleRemoveEvent dt st channelsR).1.totalSize
      = ((handleRemoveEvent dt st channelsR).1.data.length : Int) := by
  constructor
  · obtain ⟨hts, hperm, -⟩ :=
      addLoop_spec dt sf (channelsA.filter (fun c => (getIndex st.data c.id).isNone)) st []
    simp only [handleAddEvent]
    rw [hts, hperm.length_eq]
    simp only [List.length_append, List.length_map]
    push_cast
    omega
  · obtain ⟨hts, hlen⟩ := removeLoop_spec dt channelsR st []
    simp only [handleRemoveEvent]
    rcases hr : removeLoop dt st [] channelsR with ⟨st1, removed⟩
    rw [hr] at hts hlen
    simp only [List.length_nil, Nat.add_zero] at hlen
    simp only []
    rw [hts]
    push_cast
    omega

theorem totalSize_matches_length_w :
    (handleAddEvent DataType.ObjectDataType SortField.created_at stSrv [eOld]).1.totalSize
      = ((handleAddEvent DataType.ObjectDataType SortField.created_at
          stSrv [eOld]).1.data.length : Int)
    ∧ (handleRemoveEvent DataType.ObjectDataType stSrv [cSrv]).1.totalSize
      = ((handleRemoveEvent DataType.ObjectDataType stSrv [cSrv]).1.data.length : Int) :=
  totalSize_matches_length DataType.ObjectDataType SortField.created_at stSrv
    [eOld] [cSrv] (by decide)

theorem map_getData (dt : DataType) (l : List Entity) : l.map (getData dt) = l := by
  induction l with
  | nil => rfl
  | cons a l ih => rw [List.map_cons, ih]; rfl

/-- Claim C4's description of the insertion loop, following the spec's
words: each remaining entity in turn is spliced into the array at the
insertion index computed by the Insert-Order Resolver (`_getInsertIndex`,
spec section 4.3) against the array as it stands at that point, emitting one
`insert` delta carrying exactly that index and the projected target. -/
def resolverInsertSeq (dt : DataType) (sf : SortField) :
    List Entity → List Entity → List Entity × List Delta
  | data, [] => (data, [])
  | data, c :: rest =>
    ((resolverInsertSeq dt sf
        (spliceInsert data (getInsertIndex sf c data) (getData dt c)) rest).1,
      Delta.insert (getInsertIndex sf c data) (getData dt c) ::
        (resolverInsertSeq dt sf
          (spliceInsert data (getInsertIndex sf c data) (getData dt c)) rest).2)

theorem addLoop_resolverSeq (dt : DataType) (sf : SortField) :
    ∀ (list : List Entity) (st : QueryState) (deltas : List Delta),
      (addLoop dt sf st deltas list).1.data = (resolverInsertSeq dt sf st.data list).1
      ∧ (addLoop dt sf st deltas list).2
          = deltas ++ (resolverInsertSeq dt sf st.data list).2 := by
  intro list
  induction list with
  | nil =>
    intro st deltas
    exact ⟨rfl, by simp [addLoop, resolverInsertSeq]⟩
  | cons channel rest ih =>
    intro st deltas
    obtain ⟨hdata, hdeltas⟩ := ih (addStepState dt st (getInsertIndex sf channel st.data)
      (getData dt channel))
      (deltas ++ [Delta.insert (getInsertIndex sf channel st.data) (getData dt channel)])
    rw [addStepState_data] at hdata hdeltas
    simp only [addLoop, resolverInsertSeq]
    constructor
    · exact hdata
    · rw [hdeltas, List.append_assoc]
      rfl

/-- C4 (amended): for an add event whose entities carry pairwise-distinct IDs
and a prior result-set state without duplicate IDs, the handler filters out
(no insertion, no delta, no `totalSize` change) every entity whose ID is
already present, inserts each remaining entity exactly once at the insertion
index the Insert-Order Resolver computes against the array as it stands at
that point — the final array and the emitted delta stream coincide exactly
with the resolver-driven insertion sequence `resolverInsertSeq`, so every
`insert` delta carries exactly the computed `{index, target}` — and the
result set still contains each ID at most once (the result array is a
permutation of the fresh entities together with the old array). -/
theorem addEvent_nodup_characterized (dt : DataType) (sf : SortField) (st : QueryState)
    (channels : List Entity)
    (h1 : (st.data.map Entity.id).Nodup)
    (h2 : (channels.map Entity.id).Nodup) :
    ((handleAddEvent dt sf st channels).1.data.map Entity.id).Nodup
    ∧ (handleAddEvent dt sf st channels).1.data.Perm
        ((channels.filter (fun c => (getIndex st.data c.id).isNone)) ++ st.data)
    ∧ (handleAddEvent dt sf st channels).1.totalSize
        = st.totalSize + (channels.filter (fun c => (getIndex st.data c.id).isNone)).length
    ∧ ((handleAddEvent dt sf st channels).2).length
        = (channels.filter (fun c => (getIndex st.data c.id).isNone)).length
    ∧ (∀ d ∈ (handleAddEvent dt sf st channels).2, d.isInsert = true)
    ∧ (∀ i d c, ((handleAddEvent dt sf st channels).2).get? i = some d →
        (channels.filter (fun c => (getIndex st.data c.id).isNone)).get? i = some c →
        ∃ k, d = Delta.insert k (getData dt c))
    ∧ (handleAddEvent dt sf st channels).1.data
        = (resolverInsertSeq dt sf st.data
            (channels.filter (fun c => (getIndex st.data c.id).isNone))).1
    ∧ (handleAddEvent dt sf st channels).2
        = (resolverInsertSeq dt sf st.data
            (channels.filter (fun c => (getIndex st.data c.id).isNone))).2 := by
  obtain ⟨hseqdata, hseqdeltas⟩ := addLoop_resolverSeq dt sf
    (channels.filter (fun c => (getIndex st.data c.id).isNone)) st []
  obtain ⟨hts, hperm, tail, htail, hlen, hins, hcorr⟩ :=
    addLoop_spec dt sf (channels.filter (fun c => (getIndex st.data c.id).isNone)) st []
  rw [map_getData] at hperm
  have hfreshnodup :
      ((channels.filter (fun c => (getIndex st.data c.id).isNone)).map Entity.id).Nodup :=
    h2.sublist (List.Sublist.map Entity.id (List.filter_sublist channels))
  have hdisj :
      ((channels.filter (fun c => (getIndex st.data c.id).isNone)).map Entity.id).Disjoint
        (st.data.map Entity.id) := by
    intro a ha hb
    simp only [List.mem_map] at ha hb
    rcases ha with ⟨c, hc, rfl⟩
    rcases hb with ⟨e, he, heid⟩
    have hcf := List.of_mem_filter hc
    simp only [Option.isNone_iff_eq_none] at hcf
    have := ((getIndex_eq_none_iff c.id st.data).mp hcf) e he
    rw [heid] at this
    simp at this
  simp only [handleAddEvent]
  refine ⟨?_, hperm, hts, ?_, ?_, ?_, hseqdata, by simpa using hseqdeltas⟩
  · have hpm := (hperm.map Entity.id).nodup_iff
    rw [hpm, List.map_append, List.nodup_append]
    exact ⟨hfreshnodup, h1, hdisj⟩
  · rw [htail]
    simp [hlen]
  · intro d hd
    rw [htail] at hd
    simp only [List.nil_append] at hd
    exact hins d hd
  · intro i d c hd hc
    rw [htail] at hd
    simp only [List.nil_append] at hd
    exact hcorr i d c hd hc

theorem addEvent_nodup_characterized_w :
    ((handleAddEvent DataType.InstanceDataType SortField.created_at stSrv
        [cSrv, eOld]).1.data.map Entity.id).Nodup
    ∧ (handleAddEvent DataType.InstanceDataType SortField.created_at stSrv
        [cSrv, eOld]).2
      = (resolverInsertSeq DataType.InstanceDataType SortField.created_at stSrv.data
          ([cSrv, eOld].filter (fun c => (getIndex stSrv.data c.id).isNone))).2 :=
  ⟨(addEvent_nodup_characterized DataType.InstanceDataType SortField.created_at stSrv
      [cSrv, eOld] (by decide) (by decide)).1,
    (addEvent_nodup_characterized DataType.InstanceDataType SortField.created_at stSrv
      [cSrv, eOld] (by decide) (by decide)).2.2.2.2.2.2.2⟩

/-- C4 counterexample: an add event carrying the same entity twice — both
copies absent from the (duplicate-free, here empty) prior state — passes the
present-ID filter twice, because the filter only consults the array as it was
before the event, and is inserted twice: afterwards the result set holds the
same ID at two positions, violating the claim's at-most-once conclusion. -/
theorem addEvent_duplicate_counterexample :
    (stEmpty.data.map Entity.id).Nodup
    ∧ ¬ (((handleAddEvent DataType.InstanceDataType SortField.created_at stEmpty
        [cSrv, cSrv]).1.data.map Entity.id).Nodup) := by
  decide

/-- C7: when the change target is present (the handler's index lookup
succeeds), the handler emits exactly one `property` delta; when additionally
the change set touches `lastMessage` under recency sort and the recomputed
insertion index differs from the old index, the entity is splice-removed from
the old index and splice-inserted at the new index and the delta stream is
exactly the `property` delta followed by one `move` delta carrying
`{fromIndex, toIndex}`; when the position does not change (or no reorder
applies), no `move` delta is emitted. -/
theorem changeEvent_deltas_characterized (dt : DataType) (sf : SortField)
    (st : QueryState) (evt : ChangeEvent) (index : Nat)
    (hfound : changeEffectiveIndex dt st.data evt = some index) :
    ∀ st1 deltas, handleChangeEvent dt sf st evt = (st1, deltas) →
      deltas.countP (fun d => d.isProperty) = 1
      ∧ ((evt.hasLastMessage && sf == SortField.last_message) = true →
          getInsertIndex sf evt.target st.data ≠ index →
          deltas = [Delta.property evt.target,
            Delta.move index (getInsertIndex sf evt.target st.data) evt.target]
          ∧ st1.data = spliceInsert (spliceRemove st.data index)
              (getInsertIndex sf evt.target st.data) (getData dt evt.target))
      ∧ ((evt.hasLastMessage && sf == SortField.last_message) = false ∨
            getInsertIndex sf evt.target st.data = index →
          deltas.countP (fun d => d.isMove) = 0) := by
  intro st1 deltas h
  simp only [handleChangeEvent, hfound] at h
  by_cases hdt : dt = DataType.ObjectDataType
  · by_cases hre : (evt.hasLastMessage && sf == SortField.last_message) = true
    · by_cases hni : getInsertIndex sf evt.target st.data = index
      · simp only [hdt, hre, hni, Bool.not_true, Bool.false_eq_true, if_false, if_pos,
          ne_eq, not_true_eq_false, ite_false, ite_true] at h
        obtain ⟨rfl, rfl⟩ := Prod.mk.injEq .. ▸ h
        refine ⟨rfl, ?_, fun _ => rfl⟩
        intro _ hne
        exact absurd hni hne
      · simp only [hdt, hre, hni, Bool.not_true, Bool.false_eq_true, if_false, if_pos,
          ne_eq, not_false_eq_true, ite_true, ite_false] at h
        obtain ⟨rfl, rfl⟩ := Prod.mk.injEq .. ▸ h
        refine ⟨rfl, ?_, ?_⟩
        · intro _ _
          exact ⟨rfl, rfl⟩
        · intro hcontra
          rcases hcontra with hcontra | hcontra
          · rw [hre] at hcontra; cases hcontra
          · exact absurd hcontra hni
    · have hre2 : (evt.hasLastMessage && sf == SortField.last_message) = false := by
        simpa using hre
      simp only [hdt, hre2, Bool.not_false, if_pos, ite_true] at h
      obtain ⟨rfl, rfl⟩ := Prod.mk.injEq .. ▸ h
      refine ⟨rfl, ?_, fun _ => rfl⟩
      intro hcontra _
      rw [hre2] at hcontra; cases hcontra
  · by_cases hre : (evt.hasLastMessage && sf == SortField.last_message) = true
    · by_cases hni : getInsertIndex sf evt.target st.data = index
      · simp only [hdt, hre, hni, Bool.not_true, Bool.false_eq_true, if_false,
          ne_eq, not_true_eq_false, ite_false, ite_true] at h
        obtain ⟨rfl, rfl⟩ := Prod.mk.injEq .. ▸ h
        refine ⟨rfl, ?_, fun _ => rfl⟩
        intro _ hne
        exact absurd hni hne
      · simp only [hdt, hre, hni, Bool.not_true, Bool.false_eq_true, if_false,
          ne_eq, not_false_eq_true, ite_true, ite_false] at h
        obtain ⟨rfl, rfl⟩ := Prod.mk.injEq .. ▸ h
        refine ⟨rfl, ?_, ?_⟩
        · intro _ _
          exact ⟨rfl, rfl⟩
        · intro hcontra
          rcases hcontra with hcontra | hcontra
          · rw [hre] at hcontra; cases hcontra
          · exact absurd hcontra hni
    · have hre2 : (evt.hasLastMessage && sf == SortField.last_message) = false := by
        simpa using hre
      simp only [hdt, hre2, Bool.not_false, ite_true, if_false] at h
      obtain ⟨rfl, rfl⟩ := Prod.mk.injEq .. ▸ h
      refine ⟨rfl, ?_, fun _ => rfl⟩
      intro hcontra _
      rw [hre2] at hcontra; cases hcontra

/-- Change event that moves `chA` (present at index 1 of `stBA`) to index 0
under recency sort. -/
def evtMove : ChangeEvent :=
  { target := chA, hasLastMessage := true, idOldValue := none }

theorem changeEvent_deltas_characterized_w :
    ((handleChangeEvent DataType.InstanceDataType SortField.last_message stBA
        evtMove).2).countP (fun d => d.isProperty) = 1 :=
  (changeEvent_deltas_characterized DataType.InstanceDataType SortField.last_message stBA
    evtMove 1 (by decide)
    (handleChangeEvent DataType.InstanceDataType SortField.last_message stBA evtMove).1
    (handleChangeEvent DataType.InstanceDataType SortField.last_message stBA evtMove).2
    rfl).1

theorem addStepState_object_refs (st : QueryState) (n : Nat) (x : Entity) :
    (addStepState DataType.ObjectDataType st n x).dataRef = st.nextRef
    ∧ (addStepState DataType.ObjectDataType st n x).nextRef = st.nextRef + 1 := by
  simp [addStepState]

theorem addStepState_instance_refs (st : QueryState) (n : Nat) (x : Entity) :
    (addStepState DataType.InstanceDataType st n x).dataRef = st.dataRef
    ∧ (addStepState DataType.InstanceDataType st n x).nextRef = st.nextRef := by
  simp [addStepState]

theorem addLoop_instance_ref (sf : SortField) :
    ∀ (list : List Entity) (st : QueryState) (deltas : List Delta),
      (addLoop DataType.InstanceDataType sf st deltas list).1.dataRef = st.dataRef := by
  intro list
  induction list with
  | nil => intro st deltas; rfl
  | cons channel rest ih =>
    intro st deltas
    simp only [addLoop]
    rw [ih]
    exact (addStepState_instance_refs st _ _).1

theorem addLoop_object_ref (sf : SortField) :
    ∀ (list : List Entity) (st : QueryState) (deltas : List Delta), list ≠ [] →
      st.nextRef ≤ (addLoop DataType.ObjectDataType sf st deltas list).1.dataRef
      ∧ (addLoop DataType.ObjectDataType sf st deltas list).1.dataRef
          < (addLoop DataType.ObjectDataType sf st deltas list).1.nextRef := by
  intro list
  induction list with
  | nil => intro st deltas h; exact absurd rfl h
  | cons channel rest ih =>
    intro st deltas _
    simp only [addLoop]
    rcases rest with _ | ⟨r2, rest2⟩
    · simp only [addLoop]
      rw [(addStepState_object_refs st _ _).1, (addStepState_object_refs st _ _).2]
      omega
    · obtain ⟨h1, h2⟩ := ih (addStepState DataType.ObjectDataType st
        (getInsertIndex sf channel st.data) (getData DataType.ObjectDataType channel))
        (deltas ++ [Delta.insert (getInsertIndex sf channel st.data)
          (getData DataType.ObjectDataType channel)]) (by simp)
      rw [(addStepState_object_refs st _ _).2] at h1
      exact ⟨by omega, h2⟩

theorem removeCursorState_fields (st : QueryState) (channel : Entity) (index : Nat) :
    (removeCursorState st channel index).data = st.data
    ∧ (removeCursorState st channel index).dataRef = st.dataRef
    ∧ (removeCursorState st channel index).nextRef = st.nextRef := ⟨rfl, rfl, rfl⟩

theorem removeStepState_object_refs (st : QueryState) (index : Nat) :
    (removeStepState DataType.ObjectDataType st index).dataRef = st.nextRef
    ∧ (removeStepState DataType.ObjectDataType st index).nextRef = st.nextRef + 1 := by
  simp [removeStepState]

theorem removeStepState_instance_refs (st : QueryState) (index : Nat) :
    (removeStepState DataType.InstanceDataType st index).dataRef = st.dataRef
    ∧ (removeStepState DataType.InstanceDataType st index).nextRef = st.nextRef := by
  simp [removeStepState]

theorem removeLoop_instance_ref :
    ∀ (list : List Entity) (st : QueryState) (removed : List (Entity × Nat)),
      (removeLoop DataType.InstanceDataType st removed list).1.dataRef = st.dataRef := by
  intro list
  induction list with
  | nil => intro st removed; rfl
  | cons channel rest ih =>
    intro st removed
    simp only [removeLoop]
    rcases hidx : getIndex st.data channel.id with _ | index
    · exact ih st removed
    · rw [ih]
      rw [(removeStepState_instance_refs _ _).1]
      exact (removeCursorState_fields st channel index).2.1

theorem removeLoop_object_ref :
    ∀ (list : List Entity) (st : QueryState) (removed : List (Entity × Nat)),
      ((∀ c ∈ list, getIndex st.data c.id = none)
        ∧ (removeLoop DataType.ObjectDataType st removed list).1.dataRef = st.dataRef
        ∧ (removeLoop DataType.ObjectDataType st removed list).1.nextRef = st.nextRef)
      ∨ (st.nextRef ≤ (removeLoop DataType.ObjectDataType st removed list).1.dataRef
        ∧ (removeLoop DataType.ObjectDataType st removed list).1.dataRef
            < (removeLoop DataType.ObjectDataType st removed list).1.nextRef) := by
  intro list
  induction list with
  | nil =>
    intro st removed
    left
    exact ⟨by intro c hc; simp at hc, rfl, rfl⟩
  | cons channel rest ih =>
    intro st removed
    rcases hidx : getIndex st.data channel.id with _ | index
    · simp only [removeLoop, hidx]
      rcases ih st removed with ⟨hall, h1, h2⟩ | ⟨h1, h2⟩
      · left
        refine ⟨?_, h1, h2⟩
        intro c hc
        rcases List.mem_cons.mp hc with hc | hc
        · subst hc; exact hidx
        · exact hall c hc
      · right
        exact ⟨h1, h2⟩
    · simp only [removeLoop, hidx]
      right
      have hcf := removeCursorState_fields st channel index
      rcases ih (removeStepState DataType.ObjectDataType
          (removeCursorState st channel index) index) (removed ++ [(channel, index)])
        with ⟨-, h1, h2⟩ | ⟨h1, h2⟩
      · rw [h1, h2, (removeStepState_object_refs _ _).1, (removeStepState_object_refs _ _).2,
          hcf.2.2]
        omega
      · rw [(removeStepState_object_refs _ _).2, hcf.2.2] at h1
        exact ⟨by omega, h2⟩

theorem handleRemoveEvent_dataRef (dt : DataType) (st : QueryState)
    (channels : List Entity) :
    (handleRemoveEvent dt st channels).1.dataRef
      = (removeLoop dt st [] channels).1.dataRef := by
  simp only [handleRemoveEvent]

/-- C10: with ObjectDataType every mutating event handler rebinds `this.data`
to a freshly allocated array object — the allocation token after the event
differs from the token held before — for an add event with at least one
not-yet-present entity, a remove event with at least one present entity, and
a change event whose target is present; with InstanceDataType all three
handlers keep `this.data` bound to the same array object (token unchanged),
mutating it in place. -/
theorem dataRef_replace_vs_inplace (sf : SortField) (st : QueryState)
    (channelsA channelsR : List Entity) (evt : ChangeEvent)
    (hwf : st.dataRef < st.nextRef) :
    ((∃ c ∈ channelsA, (getIndex st.data c.id).isNone = true) →
      (handleAddEvent DataType.ObjectDataType sf st channelsA).1.dataRef ≠ st.dataRef)
    ∧ (handleAddEvent DataType.InstanceDataType sf st channelsA).1.dataRef = st.dataRef
    ∧ ((∃ c ∈ channelsR, getIndex st.data c.id ≠ none) →
      (handleRemoveEvent DataType.ObjectDataType st channelsR).1.dataRef ≠ st.dataRef)
    ∧ (handleRemoveEvent DataType.InstanceDataType st channelsR).1.dataRef = st.dataRef
    ∧ (∀ i, changeEffectiveIndex DataType.ObjectDataType st.data evt = some i →
      (handleChangeEvent DataType.ObjectDataType sf st evt).1.dataRef ≠ st.dataRef)
    ∧ (handleChangeEvent DataType.InstanceDataType sf st evt).1.dataRef = st.dataRef := by
  refine ⟨?_, ?_, ?_, ?_, ?_, ?_⟩
  · rintro ⟨c, hc, hp⟩
    have hmem : c ∈ channelsA.filter (fun c => (getIndex st.data c.id).isNone) :=
      List.mem_filter.mpr ⟨hc, hp⟩
    have hne : channelsA.filter (fun c => (getIndex st.data c.id).isNone) ≠ [] :=
      List.ne_nil_of_mem hmem
    obtain ⟨h1, -⟩ := addLoop_object_ref sf
      (channelsA.filter (fun c => (getIndex st.data c.id).isNone)) st [] hne
    simp only [handleAddEvent]
    omega
  · simp only [handleAddEvent]
    exact addLoop_instance_ref sf _ st []
  · rintro ⟨c, hc, hp⟩
    rw [handleRemoveEvent_dataRef]
    rcases removeLoop_object_ref channelsR st [] with ⟨hall, h1, h2⟩ | ⟨h1, h2⟩
    · exact absurd (hall c hc) hp
    · omega
  · rw [handleRemoveEvent_dataRef]
    exact removeLoop_instance_ref channelsR st []
  · intro i hi
    simp only [handleChangeEvent, hi]
    split_ifs <;> first | exact (Nat.ne_of_lt hwf).symm | contradiction
  · rcases hio : changeEffectiveIndex DataType.InstanceDataType st.data evt with _ | i
    · simp [handleChangeEvent, hio]
    · simp only [handleChangeEvent, hio]
      split_ifs <;> first | rfl | contradiction

theorem dataRef_replace_vs_inplace_w :
    (handleAddEvent DataType.ObjectDataType SortField.created_at stSrv [eOld]).1.dataRef
      ≠ stSrv.dataRef
    ∧ (handleChangeEvent DataType.InstanceDataType SortField.last_message stSrv
        evtAbsent).1.dataRef = stSrv.dataRef :=
  ⟨(dataRef_replace_vs_inplace SortField.created_at stSrv [eOld] [] evtAbsent
      (by decide)).1 ⟨eOld, by simp, by decide⟩,
    (dataRef_replace_vs_inplace SortField.last_message stSrv [eOld] [] evtAbsent
      (by decide)).2.2.2.2.2⟩

end AiryWebapp
